import Mathlib

/-!
Verification of the BeyondConversation repository: a shallow embedding of the
client audio pipeline (`src/app/page.tsx`) and the relay server
(`src/unnamed/part_000`, the WebSocket relay between browser and the
transcription provider), with theorems settling the frozen claims about the
specification.

Modelling conventions:
* JavaScript numbers that hold audio samples are modelled as `ℚ` (exact
  rationals); the claims under verification are about the structure of the
  computations (lengths, which samples are combined, clamping bounds), not
  about floating-point rounding.
* JavaScript strings are modelled as Lean `String`; `s.length` (UTF-16 code
  units) is modelled as `String.length` (scalar count) — they agree on all
  strings appearing in the claims.
* Stateful handlers are modelled as pure functions from the relevant state and
  the incoming message to the new state plus the list of emitted effects, in
  emission order.
-/

/-- Whitespace test used by JavaScript `String.prototype.trim` (restricted to
the ASCII whitespace characters, which cover every string in the claims). -/
def isJsSpace (c : Char) : Bool :=
  c == ' ' || c == '\t' || c == '\n' || c == '\r'

/-- Model of JavaScript `String.prototype.trim`: drop whitespace from both
ends. -/
def jsTrim (s : String) : String :=
  ⟨((s.data.dropWhile isJsSpace).reverse.dropWhile isJsSpace).reverse⟩

/-- `smoothInterim` from `src/app/page.tsx` lines 39–44:
```
if (!prevInterim) return nextInterim;
if (!nextInterim) return '';
if (prevInterim.startsWith(nextInterim) && prevInterim.length > nextInterim.length) return prevInterim;
return nextInterim;
```
JavaScript `startsWith` is modelled by `List.isPrefixOf` on the character
data. -/
def smoothInterim (prevInterim nextInterim : String) : String :=
  if prevInterim = "" then nextInterim
  else if nextInterim = "" then ""
  else if nextInterim.data.isPrefixOf prevInterim.data = true ∧
          nextInterim.length < prevInterim.length then prevInterim
  else nextInterim

/-- JavaScript `Math.max` on two numbers. -/
def jsMax (a b : ℚ) : ℚ := if a ≤ b then b else a

/-- JavaScript `Math.min` on two numbers. -/
def jsMin (a b : ℚ) : ℚ := if a ≤ b then a else b

/-- Truncation toward zero of a rational, as JavaScript integer conversion
truncates floats toward zero. -/
def truncRat (x : ℚ) : Int :=
  if x < 0 then ⌈x⌉ else ⌊x⌋

/-- Storing a (truncated) number into a JavaScript `Int16Array` slot: wrap
modulo 2^16 into the signed 16-bit range. -/
def toInt16 (x : ℚ) : Int :=
  (truncRat x + 32768) % 65536 - 32768

/-- The loop body of `floatToPCM16` from `src/app/page.tsx` lines 47–54:
```
const s = Math.max(-1, Math.min(1, f32[i]));
out[i] = s < 0 ? s * 0x8000 : s * 0x7fff;
```
The store into `Int16Array` is `toInt16`. -/
def encodeSample (v : ℚ) : Int :=
  let s := jsMax (-1) (jsMin 1 v)
  toInt16 (if s < 0 then s * 32768 else s * 32767)

/-- `floatToPCM16` from `src/app/page.tsx` lines 47–54: `encodeSample` applied
at every index. -/
def floatToPCM16 (f32 : List ℚ) : List Int :=
  f32.map encodeSample

/-- The inner `while` loop of `downsampleTo24kHz` (`src/app/page.tsx` lines
75–79):
```
while (acc < nextAcc && idx < samples.length) { sum += samples[idx++]; count++; acc++; }
```
In the source, `acc` and `idx` both start at 0 and are only ever incremented
together, so `acc` always equals `idx`; the embedding therefore tests the
index itself (cast to `ℚ`) against `nextAcc`. Arguments: current index, the
samples not yet consumed, the running `sum` and `count`. Returns the final
`sum`, `count`, index, and remaining samples. -/
def dsInner (nextAcc : ℚ) : Nat → List ℚ → ℚ → Nat → ℚ × Nat × Nat × List ℚ
  | idx, s :: rest, sum, count =>
      if (idx : ℚ) < nextAcc then dsInner nextAcc (idx + 1) rest (sum + s) (count + 1)
      else (sum, count, idx, s :: rest)
  | idx, [], sum, count => (sum, count, idx, [])

/-- The outer `for` loop of `downsampleTo24kHz` (`src/app/page.tsx` lines
72–81): for each output index `i` up to `newLen`, consume the input span up to
`(i+1)*r` and emit `count ? sum / count : 0`. Arguments: the rate quotient
`r`, the number of outputs still to produce, the current output index, the
current input index, and the remaining input samples. -/
def dsOuter (r : ℚ) : Nat → Nat → Nat → List ℚ → List ℚ
  | 0, _, _, _ => []
  | fuel + 1, i, idx, rem =>
      match dsInner (((i : ℚ) + 1) * r) idx rem 0 0 with
      | (sum, count, idx', rem') =>
          (if count = 0 then 0 else sum / (count : ℚ)) :: dsOuter r fuel (i + 1) idx' rem'

/-- `downsampleTo24kHz` from `src/app/page.tsx` lines 65–83:
```
if (srcRate === 24000) return samples;
const ratio = srcRate / 24000;
const newLen = Math.floor(samples.length / ratio);
...
```
`Math.floor` of the nonnegative quotient is `Nat.floor`. -/
def downsampleTo24kHz (samples : List ℚ) (srcRate : Nat) : List ℚ :=
  if srcRate = 24000 then samples
  else
    let r : ℚ := (srcRate : ℚ) / 24000
    let newLen : Nat := ⌊(samples.length : ℚ) / r⌋₊
    dsOuter r newLen 0 0 samples

/-- Minimum frame threshold, `src/app/page.tsx` line 161:
`const THRESHOLD_SAMPLES_24K = 2400;` (≈ 100 ms at 24 kHz). -/
def THRESHOLD_SAMPLES_24K : Nat := 2400

/-- One step of the client-side sample accumulator, `src/app/page.tsx` lines
348–372 (`node.port.onmessage`): the incoming chunk is downsampled, appended
to the pending buffer (`pendingSamplesRef`, `none`/empty both modelled as
`[]`), and if the merged buffer reaches `THRESHOLD_SAMPLES_24K` the handler
sends `floatToPCM16(down)` — built from the newest downsampled chunk `down`
only — and clears the pending buffer. Returns the new pending buffer and the
emitted PCM frame, if any. -/
def onAudioChunk (pending : List ℚ) (chunk : List ℚ) (srcRate : Nat) :
    List ℚ × Option (List Int) :=
  let down := downsampleTo24kHz chunk srcRate
  let buf := pending ++ down
  if THRESHOLD_SAMPLES_24K ≤ buf.length then ([], some (floatToPCM16 down))
  else (buf, none)

/-- Written from the spec's words, for comparison with `downsampleTo24kHz` at
a 48 kHz source rate (2× the target): "for each output sample index, average
all source samples whose fractional position falls in the corresponding input
span" — at ratio 2, the average of each consecutive disjoint pair, with any
trailing unpaired sample dropped (output length `⌊n/2⌋`). -/
def specPairAverage : List ℚ → List ℚ
  | [] => []
  | [_] => []
  | a :: b :: rest => (a + b) / 2 :: specPairAverage rest

/-! ## Relay server (`src/unnamed/part_000`) -/

/-- Minimum-commit threshold, line 25:
`const MIN_B64_FOR_100MS = 6400;`. -/
def MIN_B64_FOR_100MS : Nat := 6400

/-- The module-level mutable server state, lines 23–24. In the source these
are declared OUTSIDE `WSS.on('connection', ...)`:
```
let approxB64SinceCommit = 0;
let activeResponse = false;
```
so one copy exists for the whole process, shared by every connection. -/
structure GlobalState where
  approxB64SinceCommit : Nat
  activeResponse : Bool
deriving DecidableEq

/-- Per-connection mutable state: `let language = 'en';` (line 29) is the only
variable declared inside the connection handler. -/
structure ConnState where
  language : String
deriving DecidableEq

/-- Transcript channel tag in relay→client `transcript` messages. -/
inductive Channel
  | interim
  | final
deriving DecidableEq

/-- Messages the relay sends upstream to the provider (the payloads the
claims examine; the constant JSON fields are omitted). -/
inductive UpstreamMsg
  | sessionUpdate (language : String)
  | audioAppend (audio : String)
  | commit
  | responseCreate
deriving DecidableEq

/-- Messages the relay sends back to the browser client. -/
inductive RelayToClient
  | transcript (channel : Channel) (text : String)
  | pong (t : Int)
  | statusProviderError
deriving DecidableEq

/-- An observable effect of one message-handling step. -/
inductive Effect
  | toProvider (m : UpstreamMsg)
  | toClient (m : RelayToClient)
  | closeConn
deriving DecidableEq

/-- A parsed browser→relay message (`client.on('message')`, lines 53–106).
`malformed` stands for a payload `JSON.parse` rejects (caught and ignored at
line 105) or a JSON message whose `type` matches none of the handled tags. -/
inductive ClientMsg
  | config (language : String)
  | audioAppend (audio : String)
  | flush
  | ping (t : Int)
  | malformed
deriving DecidableEq

/-- The browser-message handler, `client.on('message')` lines 53–106, as a
pure function of the shared global state and the connection's state. Branches,
in source order:
* `config` (lines 57–68): when `msg.language` is truthy (non-empty), store it
  and push one `session.update` upstream;
* `client.audio.append` (lines 69–76): add `msg.audio.length` to
  `approxB64SinceCommit` and forward an `input_audio_buffer.append`;
* `client.flush` (lines 77–99): below `MIN_B64_FOR_100MS` do nothing;
  otherwise send `input_audio_buffer.commit`, and if no response is active,
  set `activeResponse`, send `response.create`, and zero the counter;
* `ping` (lines 101–104): echo `pong` with the same `t`. -/
def handleClientMessage (g : GlobalState) (c : ConnState) (msg : ClientMsg) :
    GlobalState × ConnState × List Effect :=
  match msg with
  | .config lang =>
      if lang ≠ "" then (g, ⟨lang⟩, [.toProvider (.sessionUpdate lang)])
      else (g, c, [])
  | .audioAppend audio =>
      ({ g with approxB64SinceCommit := g.approxB64SinceCommit + audio.length }, c,
       [.toProvider (.audioAppend audio)])
  | .flush =>
      if g.approxB64SinceCommit < MIN_B64_FOR_100MS then (g, c, [])
      else if g.activeResponse then (g, c, [.toProvider .commit])
      else (⟨0, true⟩, c, [.toProvider .commit, .toProvider .responseCreate])
  | .ping t => (g, c, [.toClient (.pong t)])
  | .malformed => (g, c, [])

/-- The whole relay process: the single shared `GlobalState` plus the
per-connection states of the currently open connections, keyed by a
connection identifier. -/
structure RelayServer where
  global : GlobalState
  conns : List (Nat × ConnState)
deriving DecidableEq

/-- Dispatch one browser message arriving on connection `cid`: the handler
reads and writes the one shared `GlobalState` (as the source's module-level
variables) and that connection's own `ConnState`. Emitted effects are tagged
with the connection they belong to. -/
def serverHandle (srv : RelayServer) (cid : Nat) (msg : ClientMsg) :
    RelayServer × List (Nat × Effect) :=
  match srv.conns.lookup cid with
  | none => (srv, [])
  | some c =>
      match handleClientMessage srv.global c msg with
      | (g', c', effs) =>
          (⟨g', srv.conns.map fun p => if p.1 = cid then (cid, c') else p⟩,
           effs.map fun e => (cid, e))

/-- A provider event, after `JSON.parse` of one line and extraction of its
text payload, mirroring the dispatch on `m.type` in `openai.on('message')`
(lines 109–207). Text extraction is embedded in the constructors:
* `contentPartAdded`/`contentPartDone` carry the first string among
  `part.text`, `part.content`, `part.transcript`, or `""` if none;
* the delta shapes carry `String(m.delta || '')` (for `deltaOutputText`,
  `String(m.delta.text || '')`), the done shapes `String(m.text || '')`;
* `responseCompleted` carries the list `m.response.output_text`, each element
  mapped to `x?.content || ''` (`none` stands for a non-array or absent
  `output_text`);
* `otherEvent` is any other `m.type` (including `response.delta` whose
  `delta.type` is not `output_text.delta`). -/
inductive ProviderEvent
  | responseCreated
  | responseDone
  | contentPartAdded (text : String)
  | contentPartDone (text : String)
  | errorEvent (payload : String)
  | audioTranscriptDelta (delta : String)
  | audioTranscriptDone (text : String)
  | textDelta (delta : String)
  | textDone (text : String)
  | outputTextDelta (delta : String)
  | deltaOutputText (text : String)
  | outputTextDone (text : String)
  | responseCompleted (parts : Option (List String))
  | otherEvent
deriving DecidableEq

/-- Processing of one parsed provider event by the body of the `for` loop in
`openai.on('message')` (lines 114–203), as a pure function of
`activeResponse`. Returns the new `activeResponse`, the effects emitted for
this line, and whether the handler executed `return` on this line (aborting
the rest of the batch): true exactly for `response.content_part.done`
(line 154) and `error`/`response.error` (line 160). Since the `m.type` tags
of all branches are distinct string literals, each event takes exactly one
branch; `response.created`/`response.done` fall through to the final `else`,
which only logs. -/
def handleProviderEvent (active : Bool) (e : ProviderEvent) :
    Bool × List Effect × Bool :=
  match e with
  | .responseCreated => (true, [], false)
  | .responseDone => (false, [], false)
  | .contentPartAdded t =>
      (active, if t ≠ "" then [.toClient (.transcript .interim t)] else [], false)
  | .contentPartDone t =>
      (active, if t ≠ "" then [.toClient (.transcript .final (jsTrim t))] else [], true)
  | .errorEvent _ => (active, [], true)
  | .audioTranscriptDelta d =>
      (active, if d ≠ "" then [.toClient (.transcript .interim d)] else [], false)
  | .audioTranscriptDone t =>
      (active, if jsTrim t ≠ "" then [.toClient (.transcript .final (jsTrim t))] else [], false)
  | .textDelta d =>
      (active, if d ≠ "" then [.toClient (.transcript .interim d)] else [], false)
  | .textDone t =>
      (active, if jsTrim t ≠ "" then [.toClient (.transcript .final (jsTrim t))] else [], false)
  | .outputTextDelta d =>
      (active, if d ≠ "" then [.toClient (.transcript .interim d)] else [], false)
  | .deltaOutputText t =>
      (active, if t ≠ "" then [.toClient (.transcript .interim t)] else [], false)
  | .outputTextDone t =>
      (active, if jsTrim t ≠ "" then [.toClient (.transcript .final (jsTrim t))] else [], false)
  | .responseCompleted parts =>
      match parts with
      | some ps =>
          if ps ≠ [] ∧ jsTrim (String.intercalate " " ps) ≠ "" then
            (active, [.toClient (.transcript .final (jsTrim (String.intercalate " " ps)))], false)
          else (active, [], false)
      | none => (active, [], false)
  | .otherEvent => (active, [], false)

/-- One non-blank line of a provider batch: either a line `JSON.parse`
accepts (an event) or one it rejects. -/
inductive ProviderLine
  | event (e : ProviderEvent)
  | malformed
deriving DecidableEq

/-- The `for` loop over the non-blank lines of one provider message
(lines 112–203): a malformed line hits `break` (line 120) before any other
action; an event line is processed and, when its branch ends in `return`,
the remaining lines are skipped. Returns the final `activeResponse` and the
concatenated effects. -/
def processLines (active : Bool) : List ProviderLine → Bool × List Effect
  | [] => (active, [])
  | .malformed :: _ => (active, [])
  | .event e :: rest =>
      match handleProviderEvent active e with
      | (a', effs, stop) =>
          if stop then (a', effs)
          else
            match processLines a' rest with
            | (a'', effs') => (a'', effs ++ effs')

/-- A concrete base64 payload of length 6400 (exactly the minimum-commit
threshold), used to exhibit cross-connection interference. -/
def audio6400 : String := ⟨List.replicate 6400 'a'⟩

/-! ## Helper lemmas -/

/-- The provider-message handler never closes a connection: no branch of the
per-event processing emits a close. -/
theorem handleProviderEvent_no_close (active : Bool) (e : ProviderEvent) :
    Effect.closeConn ∉ (handleProviderEvent active e).2.1 := by
  cases e
  case responseCompleted parts =>
    cases parts with
    | none => simp [handleProviderEvent]
    | some ps =>
        by_cases h : ps ≠ [] ∧ jsTrim (String.intercalate " " ps) ≠ ""
        · simp [handleProviderEvent, h]
        · simp [handleProviderEvent, h]
  all_goals simp only [handleProviderEvent]
  all_goals try split
  all_goals simp

/-- Processing a batch of provider lines never closes the connection. -/
theorem processLines_no_close (lines : List ProviderLine) :
    ∀ active : Bool, Effect.closeConn ∉ (processLines active lines).2 := by
  induction lines with
  | nil => intro active; simp [processLines]
  | cons l rest ih =>
      intro active
      cases l with
      | malformed => simp [processLines]
      | event e =>
          simp only [processLines]
          have hev := handleProviderEvent_no_close active e
          rcases h : handleProviderEvent active e with ⟨a', effs, stop⟩
          rw [h] at hev
          cases stop with
          | true => simpa using hev
          | false =>
              rcases h2 : processLines a' rest with ⟨a'', effs'⟩
              have := ih a'
              rw [h2] at this
              simp_all

/-! ## Claims -/

/-- C1: For every flush signal: below the 6400 threshold nothing is sent and
the estimate is unchanged; at/above with the lifecycle flag false, exactly one
commit and one request-create are sent, the flag becomes true and the
estimate resets to zero; at/above with the flag already true, exactly one
commit and no request-create, the flag stays true and the estimate is not
reset. -/
theorem flush_commit_gate (g : GlobalState) (c : ConnState) :
    (g.approxB64SinceCommit < MIN_B64_FOR_100MS →
      handleClientMessage g c .flush = (g, c, [])) ∧
    (MIN_B64_FOR_100MS ≤ g.approxB64SinceCommit → g.activeResponse = false →
      handleClientMessage g c .flush =
        (⟨0, true⟩, c, [.toProvider .commit, .toProvider .responseCreate])) ∧
    (MIN_B64_FOR_100MS ≤ g.approxB64SinceCommit → g.activeResponse = true →
      handleClientMessage g c .flush = (g, c, [.toProvider .commit])) := by
  refine ⟨fun h => ?_, fun h hact => ?_, fun h hact => ?_⟩
  · simp [handleClientMessage, h]
  · simp [handleClientMessage, Nat.not_lt.mpr h, hact]
  · simp [handleClientMessage, Nat.not_lt.mpr h, hact]

/-- Witness for C1: a flush at exactly the threshold with no active response
commits, creates a request, sets the flag and resets the estimate. -/
theorem flush_commit_gate_witness :
    handleClientMessage ⟨6400, false⟩ ⟨"en"⟩ .flush =
      (⟨0, true⟩, ⟨"en"⟩, [.toProvider .commit, .toProvider .responseCreate]) :=
  (flush_commit_gate ⟨6400, false⟩ ⟨"en"⟩).2.1 (by decide) rfl

/-- C10: A well-formed `config` message carrying a (non-empty) language field
only changes the session language and pushes exactly one session update
upstream; the buffer estimate and lifecycle flag are untouched and nothing is
sent to the client. -/
theorem config_updates_language_only (g : GlobalState) (c : ConnState)
    (lang : String) (h : lang ≠ "") :
    handleClientMessage g c (.config lang) =
      (g, ⟨lang⟩, [.toProvider (.sessionUpdate lang)]) := by
  simp [handleClientMessage, h]

/-- Witness for C10 at language "ko". -/
theorem config_updates_language_only_witness :
    handleClientMessage ⟨0, false⟩ ⟨"en"⟩ (.config "ko") =
      (⟨0, false⟩, ⟨"ko"⟩, [.toProvider (.sessionUpdate "ko")]) :=
  config_updates_language_only ⟨0, false⟩ ⟨"en"⟩ "ko" (by decide)

/-- C6: An explicit error-shaped provider event (`error`/`response.error`)
produces no effect at all — in particular no `transcript` message on any
channel, so error payload text never reaches the client as transcript
text — and aborts the rest of the batch. -/
theorem error_event_not_forwarded (active : Bool) (payload : String) :
    handleProviderEvent active (.errorEvent payload) = (active, [], true) := rfl

/-- C5: If a line of a provider batch fails to parse, the batch's outcome is
exactly the outcome of the lines before it: the failing line and every line
after it produce no state change and no message, and the connection is not
closed. -/
theorem provider_batch_abort (active : Bool) (before after : List ProviderLine) :
    processLines active (before ++ .malformed :: after) = processLines active before ∧
    Effect.closeConn ∉ (processLines active (before ++ .malformed :: after)).2 := by
  have key : ∀ (b : List ProviderLine) (a : Bool),
      processLines a (b ++ .malformed :: after) = processLines a b := by
    intro b
    induction b with
    | nil => intro a; simp [processLines]
    | cons l rest ih =>
        intro a
        cases l with
        | malformed => simp [processLines]
        | event e =>
            simp only [List.cons_append, processLines]
            rcases h : handleProviderEvent a e with ⟨a', effs, stop⟩
            cases stop with
            | true => simp
            | false => simp [ih a']
  exact ⟨key before active, by rw [key before active]; exact processLines_no_close before active⟩

/-- C9: `smoothInterim`: empty previous adopts the next; empty next clears;
a next that is a proper prefix of the previous retains the previous;
otherwise the next is adopted — together with the four concrete examples. -/
theorem smoothInterim_spec (prev next : String) :
    (prev = "" → smoothInterim prev next = next) ∧
    (prev ≠ "" → next = "" → smoothInterim prev next = "") ∧
    (prev ≠ "" → next ≠ "" → next.data.isPrefixOf prev.data = true →
      next.length < prev.length → smoothInterim prev next = prev) ∧
    (prev ≠ "" → next ≠ "" →
      ¬(next.data.isPrefixOf prev.data = true ∧ next.length < prev.length) →
      smoothInterim prev next = next) ∧
    (smoothInterim "" "x" = "x" ∧ smoothInterim "x" "" = "" ∧
     smoothInterim "hello wor" "hello" = "hello wor" ∧
     smoothInterim "hi the" "hello" = "hello") := by
  refine ⟨fun h => ?_, fun h1 h2 => ?_, fun h1 h2 hp hl => ?_, fun h1 h2 hn => ?_,
    by decide, by decide, by decide, by decide⟩
  · rw [smoothInterim, if_pos h]
  · rw [smoothInterim, if_neg h1, if_pos h2]
  · rw [smoothInterim, if_neg h1, if_neg h2, if_pos ⟨hp, hl⟩]
  · rw [smoothInterim, if_neg h1, if_neg h2, if_neg hn]

/-- Witness for C9: prefix retention at a concrete input. -/
theorem smoothInterim_spec_witness : smoothInterim "ab" "a" = "ab" :=
  (smoothInterim_spec "ab" "a").2.2.1 (by decide) (by decide) (by decide) (by decide)

/-- C4 counterexample: a done-shaped event (`response.audio_transcript.done`)
carrying the whitespace-only text " " forwards NO transcript message at all —
the handler trims first and then tests the result for emptiness — whereas the
claim requires a `final` transcript message with the trimmed text "". -/
theorem done_whitespace_drops_message :
    handleProviderEvent false (.audioTranscriptDone " ") = (false, [], false) := by
  decide

/-- C4 (amended): every delta-shaped event (plain text delta, transcript
delta, output-text delta variants, content-part-added) with non-empty text
forwards exactly one `interim` transcript message with the text unchanged;
every done-shaped event whose text trims to a non-empty string forwards
exactly one `final` transcript message with the trimmed text (for
content-part-done, whenever the raw text is non-empty); and the
"hel" / " lo " example batch yields exactly one interim "hel" and one final
"lo". -/
theorem normalizer_delta_done (active : Bool) (t : String) :
    (t ≠ "" → handleProviderEvent active (.audioTranscriptDelta t) =
      (active, [.toClient (.transcript .interim t)], false)) ∧
    (t ≠ "" → handleProviderEvent active (.textDelta t) =
      (active, [.toClient (.transcript .interim t)], false)) ∧
    (t ≠ "" → handleProviderEvent active (.outputTextDelta t) =
      (active, [.toClient (.transcript .interim t)], false)) ∧
    (t ≠ "" → handleProviderEvent active (.deltaOutputText t) =
      (active, [.toClient (.transcript .interim t)], false)) ∧
    (t ≠ "" → handleProviderEvent active (.contentPartAdded t) =
      (active, [.toClient (.transcript .interim t)], false)) ∧
    (jsTrim t ≠ "" → handleProviderEvent active (.audioTranscriptDone t) =
      (active, [.toClient (.transcript .final (jsTrim t))], false)) ∧
    (jsTrim t ≠ "" → handleProviderEvent active (.textDone t) =
      (active, [.toClient (.transcript .final (jsTrim t))], false)) ∧
    (jsTrim t ≠ "" → handleProviderEvent active (.outputTextDone t) =
      (active, [.toClient (.transcript .final (jsTrim t))], false)) ∧
    (t ≠ "" → handleProviderEvent active (.contentPartDone t) =
      (active, [.toClient (.transcript .final (jsTrim t))], true)) ∧
    processLines false
        [.event (.audioTranscriptDelta "hel"), .event (.audioTranscriptDone " lo ")] =
      (false, [.toClient (.transcript .interim "hel"),
               .toClient (.transcript .final "lo")]) := by
  refine ⟨fun h => ?_, fun h => ?_, fun h => ?_, fun h => ?_, fun h => ?_,
          fun h => ?_, fun h => ?_, fun h => ?_, fun h => ?_, by decide⟩ <;>
    simp [handleProviderEvent, h]

/-- Witness for the amended C4: the interim shape at text "hel" and the done
shape at text " lo ". -/
theorem normalizer_delta_done_witness :
    handleProviderEvent false (.audioTranscriptDelta "hel") =
      (false, [.toClient (.transcript .interim "hel")], false) ∧
    handleProviderEvent false (.audioTranscriptDone " lo ") =
      (false, [.toClient (.transcript .final "lo")], false) :=
  ⟨(normalizer_delta_done false "hel").1 (by decide),
   by
    have h := (normalizer_delta_done false " lo ").2.2.2.2.2.1 (by decide)
    simpa using h⟩

/-- C2: the failing run. `approxB64SinceCommit` and `activeResponse` are
module-level variables shared by every connection (source lines 23–24, outside
`WSS.on('connection')`). With two open connections, an audio append of 6400
base64 characters on connection 0 followed by a flush on connection 1 makes
connection 1 commit and start a response: connection 0's message modified the
estimate that connection 1's handler reads, refuting per-connection
isolation. -/
theorem cross_connection_interference :
    serverHandle
        (serverHandle ⟨⟨0, false⟩, [(0, ⟨"en"⟩), (1, ⟨"en"⟩)]⟩ 0
          (.audioAppend audio6400)).1
        1 .flush =
      (⟨⟨0, true⟩, [(0, ⟨"en"⟩), (1, ⟨"en"⟩)]⟩,
       [(1, .toProvider .commit), (1, .toProvider .responseCreate)]) := by
  have hlen : audio6400.length = 6400 := by
    show (List.replicate 6400 'a').length = 6400
    rw [List.length_replicate]
  have h1 : (serverHandle ⟨⟨0, false⟩, [(0, ⟨"en"⟩), (1, ⟨"en"⟩)]⟩ 0
      (.audioAppend audio6400)).1 = ⟨⟨6400, false⟩, [(0, ⟨"en"⟩), (1, ⟨"en"⟩)]⟩ := by
    simp [serverHandle, handleClientMessage, List.lookup, hlen]
  rw [h1]
  decide

/-- C3: the failing run. Two 1500-sample chunks arrive at the 24 kHz source
rate (downsampling is the identity). The first leaves 1500 pending samples
(below the 2400 threshold, no frame). On the second, the merged backlog is
3000 ≥ 2400, so a frame is emitted and the pending buffer is cleared — but the
frame is `floatToPCM16(down)` of the NEWEST chunk only: 1500 samples, not the
3000-sample backlog the claim requires; the 1500 older samples are dropped
unencoded. -/
theorem frame_encodes_only_newest_chunk :
    onAudioChunk [] (List.replicate 1500 0) 24000 = (List.replicate 1500 (0 : ℚ), none) ∧
    onAudioChunk (List.replicate 1500 (0 : ℚ)) (List.replicate 1500 0) 24000 =
      ([], some (List.replicate 1500 (0 : Int))) ∧
    (List.replicate 1500 (0 : Int)).length ≠
      (List.replicate 1500 (0 : ℚ) ++ List.replicate 1500 (0 : ℚ)).length := by
  have hdown : downsampleTo24kHz (List.replicate 1500 (0 : ℚ)) 24000 =
      List.replicate 1500 0 := rfl
  have henc : encodeSample 0 = 0 := by
    norm_num [encodeSample, jsMax, jsMin, toInt16, truncRat]
  have hmap : floatToPCM16 (List.replicate 1500 (0 : ℚ)) = List.replicate 1500 (0 : Int) := by
    rw [floatToPCM16, List.map_replicate, henc]
  refine ⟨?_, ?_, ?_⟩
  · rw [onAudioChunk, hdown, List.nil_append]
    rw [if_neg (by rw [List.length_replicate]; decide)]
  · rw [onAudioChunk, hdown, hmap]
    rw [if_pos (by rw [List.length_append, List.length_replicate]; decide)]
  · rw [List.length_append, List.length_replicate, List.length_replicate]
    decide

/-- Unfolding of `downsampleTo24kHz` off the identity branch. -/
theorem downsampleTo24kHz_ne (samples : List ℚ) (srcRate : Nat) (h : srcRate ≠ 24000) :
    downsampleTo24kHz samples srcRate =
      dsOuter ((srcRate : ℚ) / 24000)
        ⌊(samples.length : ℚ) / ((srcRate : ℚ) / 24000)⌋₊ 0 0 samples := by
  rw [downsampleTo24kHz, if_neg h]

/-- At rate quotient 2, the inner span loop starting at index `2*i` consumes
exactly the pair at positions `2*i` and `2*i+1`. -/
theorem dsInner_pair (i : Nat) (a b : ℚ) (rest : List ℚ) :
    dsInner (((i : ℚ) + 1) * 2) (2 * i) (a :: b :: rest) 0 0 =
      (a + b, 2, 2 * i + 1 + 1, rest) := by
  have h1 : 2 * (i : ℚ) < ((i : ℚ) + 1) * 2 := by linarith
  have h2 : 2 * (i : ℚ) + 1 < ((i : ℚ) + 1) * 2 := by linarith
  cases rest with
  | nil => simp [dsInner, h1, h2]
  | cons c cs =>
      have h3 : ¬ (2 * (i : ℚ) + 1 + 1 < ((i : ℚ) + 1) * 2) := by linarith
      simp [dsInner, h1, h2, h3]

/-- At rate quotient 2 with the input index locked to twice the output index,
the outer loop produces exactly the pairwise averages. -/
theorem dsOuter_pairAverage (l : List ℚ) :
    ∀ i : Nat, dsOuter 2 (l.length / 2) i (2 * i) l = specPairAverage l := by
  induction l using specPairAverage.induct with
  | case1 => intro i; simp [specPairAverage, dsOuter]
  | case2 a => intro i; simp [specPairAverage, dsOuter]
  | case3 a b rest ih =>
      intro i
      have hlen : (a :: b :: rest).length / 2 = rest.length / 2 + 1 := by
        simp only [List.length_cons]; omega
      rw [hlen]
      simp only [dsOuter, dsInner_pair]
      have h2 : 2 * i + 1 + 1 = 2 * (i + 1) := by omega
      rw [h2, ih (i + 1)]
      rw [specPairAverage]
      norm_num

/-- The pairwise average has half the input's length, rounded down. -/
theorem specPairAverage_length (l : List ℚ) :
    (specPairAverage l).length = l.length / 2 := by
  induction l using specPairAverage.induct with
  | case1 => simp [specPairAverage]
  | case2 a => simp [specPairAverage]
  | case3 a b rest ih =>
      rw [specPairAverage]
      simp only [List.length_cons, ih]
      omega

/-- C7: `downsampleTo24kHz` is the identity at the 24 kHz source rate; at a
48 kHz source rate it equals the spec's box-filter decimation
`specPairAverage` (each output is the average of the two source samples in
its span), so its output length is `⌊n/2⌋`; and the 48,000-sample unit
impulse yields a 24,000-sample output. -/
theorem downsample_box_filter :
    (∀ s : List ℚ, downsampleTo24kHz s 24000 = s) ∧
    (∀ s : List ℚ, downsampleTo24kHz s 48000 = specPairAverage s) ∧
    (∀ s : List ℚ, (downsampleTo24kHz s 48000).length = s.length / 2) ∧
    (downsampleTo24kHz ((1 : ℚ) :: List.replicate 47999 0) 48000).length = 24000 := by
  have h48 : ∀ s : List ℚ, downsampleTo24kHz s 48000 = specPairAverage s := by
    intro s
    rw [downsampleTo24kHz_ne s 48000 (by decide)]
    have hr : ((48000 : Nat) : ℚ) / 24000 = 2 := by norm_num
    rw [hr]
    have hn : ⌊(s.length : ℚ) / 2⌋₊ = s.length / 2 := by
      rw [Nat.floor_div_ofNat, Nat.floor_natCast]
    rw [hn]
    have h0 := dsOuter_pairAverage s 0
    rwa [Nat.mul_zero] at h0
  have hlen : ∀ s : List ℚ, (downsampleTo24kHz s 48000).length = s.length / 2 := by
    intro s
    rw [h48 s, specPairAverage_length]
  refine ⟨fun s => by rw [downsampleTo24kHz, if_pos rfl], h48, hlen, ?_⟩
  rw [hlen, List.length_cons, List.length_replicate]

/-- The clamp in `encodeSample` lands in `[-1, 1]`. -/
theorem clamp_bounds (v : ℚ) :
    -1 ≤ jsMax (-1) (jsMin 1 v) ∧ jsMax (-1) (jsMin 1 v) ≤ 1 := by
  rw [jsMax, jsMin]
  split_ifs with h1 h2 h3 <;> constructor <;> linarith

/-- The clamped-and-scaled value truncates into the signed 16-bit range with
no wrap-around: `encodeSample` IS clamp, then scale by the sign-appropriate
full-scale factor, then truncate toward zero, and the result lies in
`[-32768, 32767]`. -/
theorem encodeSample_eq_trunc (v : ℚ) :
    encodeSample v =
      truncRat (if jsMax (-1) (jsMin 1 v) < 0 then jsMax (-1) (jsMin 1 v) * 32768
                else jsMax (-1) (jsMin 1 v) * 32767) ∧
    -32768 ≤ encodeSample v ∧ encodeSample v ≤ 32767 := by
  obtain ⟨hs1, hs2⟩ := clamp_bounds v
  set s := jsMax (-1) (jsMin 1 v) with hs
  have key : -32768 ≤ truncRat (if s < 0 then s * 32768 else s * 32767) ∧
      truncRat (if s < 0 then s * 32768 else s * 32767) ≤ 32767 := by
    split_ifs with h0
    · have hx1 : (-32768 : ℚ) ≤ s * 32768 := by nlinarith
      have hx2 : s * 32768 ≤ 0 := by nlinarith
      rw [truncRat, if_pos (by nlinarith)]
      constructor
      · have hcast : ((-32768 : Int) : ℚ) ≤ s * 32768 := by exact_mod_cast hx1
        calc (-32768 : Int) = ⌈((-32768 : Int) : ℚ)⌉ := (Int.ceil_intCast _).symm
          _ ≤ ⌈s * 32768⌉ := Int.ceil_le_ceil hcast
      · calc ⌈s * 32768⌉ ≤ 0 := Int.ceil_le.mpr (by exact_mod_cast hx2)
          _ ≤ 32767 := by norm_num
    · have h0' : 0 ≤ s := le_of_not_lt h0
      have hx1 : (0 : ℚ) ≤ s * 32767 := by nlinarith
      have hx2 : s * 32767 ≤ 32767 := by nlinarith
      rw [truncRat, if_neg (by linarith)]
      constructor
      · calc (-32768 : Int) ≤ 0 := by norm_num
          _ ≤ ⌊s * 32767⌋ := Int.floor_nonneg.mpr hx1
      · have hcast : s * 32767 ≤ ((32767 : Int) : ℚ) := by exact_mod_cast hx2
        calc ⌊s * 32767⌋ ≤ ⌊((32767 : Int) : ℚ)⌋ := Int.floor_le_floor hcast
          _ = 32767 := Int.floor_intCast _
  obtain ⟨k1, k2⟩ := key
  have henc : encodeSample v = truncRat (if s < 0 then s * 32768 else s * 32767) := by
    have hunfold : encodeSample v = toInt16 (if s < 0 then s * 32768 else s * 32767) := rfl
    rw [hunfold, toInt16]
    have hmod : (truncRat (if s < 0 then s * 32768 else s * 32767) + 32768) % 65536 =
        truncRat (if s < 0 then s * 32768 else s * 32767) + 32768 :=
      Int.emod_eq_of_lt (by omega) (by omega)
    rw [hmod]
    omega
  exact ⟨henc, henc ▸ k1, henc ▸ k2⟩

/-- C8: `floatToPCM16` preserves length; it maps each input sample
independently through `encodeSample` (clamp to [-1,1], scale negatives by
32768 and non-negatives by 32767, truncate into the 16-bit store); every
output (reading with a zero default beyond the end) lies in
`[-32768, 32767]`; and the input `[1, 1/2, 0, -1/2, -1]` yields the five
in-range outputs `[32767, 16383, 0, -16384, -32768]`. -/
theorem floatToPCM16_quantization :
    (∀ f32 : List ℚ, (floatToPCM16 f32).length = f32.length) ∧
    (∀ (pre suf : List ℚ) (v : ℚ),
      floatToPCM16 (pre ++ v :: suf) =
        floatToPCM16 pre ++ encodeSample v :: floatToPCM16 suf) ∧
    (∀ v : ℚ, encodeSample v =
      truncRat (if jsMax (-1) (jsMin 1 v) < 0 then jsMax (-1) (jsMin 1 v) * 32768
                else jsMax (-1) (jsMin 1 v) * 32767)) ∧
    (∀ (f32 : List ℚ) (i : Nat),
      -32768 ≤ (floatToPCM16 f32).getD i 0 ∧ (floatToPCM16 f32).getD i 0 ≤ 32767) ∧
    floatToPCM16 [1, 1/2, 0, -1/2, -1] = [32767, 16383, 0, -16384, -32768] := by
  have hrange : ∀ (f32 : List ℚ) (i : Nat),
      -32768 ≤ (floatToPCM16 f32).getD i 0 ∧ (floatToPCM16 f32).getD i 0 ≤ 32767 := by
    intro f32
    induction f32 with
    | nil => intro i; simp [floatToPCM16]
    | cons v rest ih =>
        intro i
        cases i with
        | zero =>
            have h := encodeSample_eq_trunc v
            simpa [floatToPCM16] using ⟨h.2.1, h.2.2⟩
        | succ j => simpa [floatToPCM16] using ih j
  refine ⟨fun f32 => by simp [floatToPCM16],
    fun pre suf v => by simp [floatToPCM16],
    fun v => (encodeSample_eq_trunc v).1, hrange, ?_⟩
  have hhalf : (⌊(32767 / 2 : ℚ)⌋ : Int) = 16383 := by
    rw [Int.floor_eq_iff] <;> norm_num
  have hc1 : (⌈(-16384 : ℚ)⌉ : Int) = -16384 := by
    rw [Int.ceil_eq_iff] <;> norm_num
  have hc2 : (⌈(-32768 : ℚ)⌉ : Int) = -32768 := by
    rw [Int.ceil_eq_iff] <;> norm_num
  norm_num [floatToPCM16, encodeSample, toInt16, truncRat, jsMax, jsMin, hhalf, hc1, hc2]
